import Mathlib

/-!
Verification development for the `libprobe` network probing library
(ICMP echo engine and MTR orchestration).

The Go source is shallowly embedded:
* byte strings are `List Nat` (each entry a byte value),
* `time.Duration` (an `int64` of nanoseconds) is `Int`; realistic RTT
  sums are far below `2^63`, so overflow is immaterial and unbounded
  integers are used,
* the network (raw ICMP sockets), the system clock and the standard
  library collaborators `net.ParseIP` / `net.LookupAddr` are oracles
  passed in as explicit parameters,
* Go control flow that panics (nil-pointer dereference, slice bounds)
  is made explicit with a `panicked` outcome.
-/

namespace LibProbe

/- ------------------------------------------------------------------ -/
/- §1  Wire codec: golang.org/x/net/icmp marshal/parse as used in
       icmp.go (`icmpIPv4`, `icmpIPv6`, `listenForSpecific4/6`).       -/
/- ------------------------------------------------------------------ -/

/-- The fixed marker byte `'x'` appended after the 4 sequence bytes in the
echo payload (icmp.go: `append(bs, 'x')`). -/
def markerByte : Nat := 120

/-- `binary.LittleEndian.PutUint32(bs, uint32(seq))` (icmp.go): the four
little-endian bytes of `uint32(seq)`. -/
def seqLE (seq : Nat) : List Nat :=
  [seq % 256, seq / 256 % 256, seq / 65536 % 256, seq / 16777216 % 256]

/-- The 16-bit word accumulation of the x/net/icmp `checksum` helper:
pairs are read little-endian (`uint32(b[i+1])<<8 | uint32(b[i])`), a
trailing odd byte is added raw. -/
def checksumWords : List Nat → Nat
  | b0 :: b1 :: rest => (b1 * 256 + b0) + checksumWords rest
  | [b0] => b0
  | [] => 0

/-- End-around carry folding (`s = s>>16 + s&0xffff; s = s + s>>16`). -/
def foldCarry (s : Nat) : Nat :=
  let s1 := s / 65536 + s % 65536
  s1 + s1 / 65536

/-- The x/net/icmp internet checksum: fold then complement
(`return ^uint16(s)`). -/
def checksumGo (b : List Nat) : Nat :=
  65535 - foldCarry (checksumWords b) % 65536

/-- `icmp.Echo.Marshal`: big-endian 16-bit id and sequence, then the data. -/
def echoBody (id seq : Nat) (data : List Nat) : List Nat :=
  [id / 256 % 256, id % 256, seq / 256 % 256, seq % 256] ++ data

/-- The echo payload sent by both `icmpIPv4` and `icmpIPv6`:
`append(bs, 'x')` with `bs` the little-endian sequence bytes. -/
def neededBodyOf (seq : Nat) : List Nat := seqLE seq ++ [markerByte]

/-- `wm.Marshal(nil)` for the IPv4 echo request built in `icmpIPv4`
(type `ipv4.ICMPTypeEcho` = 8, code 0): header with the computed
checksum stored low byte at offset 2, high byte at offset 3. -/
def icmpEncode4 (id seq : Nat) : List Nat :=
  let body := echoBody id seq (neededBodyOf seq)
  let s := checksumGo ([8, 0, 0, 0] ++ body)
  [8, 0, s % 256, s / 256 % 256] ++ body

/-- `wm.Marshal(nil)` for the IPv6 echo request built in `icmpIPv6`
(type `ipv6.ICMPTypeEchoRequest` = 128, code 0).  With a nil
pseudo-header x/net/icmp leaves the checksum zero (the kernel fills it). -/
def icmpEncode6 (id seq : Nat) : List Nat :=
  [128, 0, 0, 0] ++ echoBody id seq (neededBodyOf seq)

/-- Parsed ICMP message body (`icmp.MessageBody`).  `raw` stands for every
body the listen loops never inspect; for such types a parse failure and a
successfully parsed body lead to the same `continue`, so the distinction
is immaterial to the loop. -/
inductive MsgBody where
  | echo (id seq : Nat) (data : List Nat)
  | timeExceeded (data : List Nat)
  | raw (data : List Nat)
deriving DecidableEq, Repr

/-- Parsed ICMP message (`icmp.Message`): type, code, body. -/
structure Msg where
  type : Nat
  code : Nat
  body : MsgBody
deriving DecidableEq, Repr

/-- `icmp.ParseMessage(protocolICMP, b)` for the shapes the IPv4 listen
loop inspects.  A message shorter than 4 bytes fails; an echo / echo
reply (types 8 / 0) needs a further 4 header bytes (`parseEcho`); a time
exceeded (type 11) needs 4 unused bytes, its `Data` is the remainder
(RFC 4884 extension trimming never applies to the packets considered
here and is omitted). -/
def parseMessage4 : List Nat → Option Msg
  | t :: c :: _ck1 :: _ck2 :: rest =>
    if t = 0 ∨ t = 8 then
      match rest with
      | i1 :: i2 :: s1 :: s2 :: data =>
        some ⟨t, c, .echo (i1 * 256 + i2) (s1 * 256 + s2) data⟩
      | _ => none
    else if t = 11 then
      match rest with
      | _ :: _ :: _ :: _ :: data => some ⟨t, c, .timeExceeded data⟩
      | _ => none
    else some ⟨t, c, .raw rest⟩
  | _ => none

/-- `icmp.ParseMessage(protocolIPv6ICMP, b)` for the shapes the IPv6
listen loop inspects: echo request / reply are types 128 / 129, time
exceeded is type 3. -/
def parseMessage6 : List Nat → Option Msg
  | t :: c :: _ck1 :: _ck2 :: rest =>
    if t = 128 ∨ t = 129 then
      match rest with
      | i1 :: i2 :: s1 :: s2 :: data =>
        some ⟨t, c, .echo (i1 * 256 + i2) (s1 * 256 + s2) data⟩
      | _ => none
    else if t = 3 then
      match rest with
      | _ :: _ :: _ :: _ :: data => some ⟨t, c, .timeExceeded data⟩
      | _ => none
    else some ⟨t, c, .raw rest⟩
  | _ => none

/-- `bytes.Index(hay, needle)`: position of the first occurrence,
`none` when absent (Go returns −1). -/
def bytesIndex (hay needle : List Nat) : Option Nat :=
  (List.range (hay.length + 1)).find?
    (fun i => (hay.drop i).take needle.length == needle)

/- ------------------------------------------------------------------ -/
/- §2  The blocking read loops `listenForSpecific4` / `listenForSpecific6`.
       One call to `conn.ReadFrom` is one `NetEvent`: either an inbound
       datagram with its source address, or a read error (a deadline
       expiry surfaces as a `*net.OpError` with `Timeout() = true`).    -/
/- ------------------------------------------------------------------ -/

/-- One result of `conn.ReadFrom`. -/
inductive NetEvent where
  | readErr (isOpError : Bool)
  | packet (data : List Nat) (peer : String)
deriving DecidableEq, Repr

/-- How a listen loop leaves (or fails to leave) its `for` loop after
consuming a finite prefix of read events.  `pending` means the loop is
still blocked reading; `panicked` marks a Go runtime panic. -/
inductive ListenOutcome where
  | found (peer : String)
  | hardErr
  | panicked
  | pending
deriving DecidableEq, Repr

/-- The body of `listenForSpecific4`'s loop for one inbound datagram:
`some out` is an early exit (return or panic), `none` is `continue`.

Go flow: an empty read is skipped; an unparseable message is skipped;
a Time Exceeded (type 11) is scanned for the first 4 bytes of the sent
request (`bytes.Index(body, sent[:4])`) and, when found at a positive
index, the tail is re-parsed with the error discarded (`x, _ :=`) — a
failed re-parse leaves `x` nil and the subsequent `x.Body` dereference
panics; an Echo Reply (type 0) matches when its payload equals
`neededBody` and its ID equals `echoID`. -/
def handlePacket4 (neededBody : List Nat) (echoID needSeq : Nat) (sent : List Nat)
    (data : List Nat) (peer : String) : Option ListenOutcome :=
  if data.length = 0 then none
  else
    match parseMessage4 data with
    | none => none
    | some m =>
      if m.type = 11 then
        match m.body with
        | .timeExceeded body =>
          match bytesIndex body (sent.take 4) with
          | some idx =>
            if 0 < idx then
              match parseMessage4 (body.drop idx) with
              | none => some .panicked
              | some m2 =>
                match m2.body with
                | .echo id2 seq2 _ =>
                  if id2 = echoID ∧ seq2 = needSeq then some (.found peer) else none
                | _ => none
            else none
          | none => none
        | _ => none
      else if m.type = 0 then
        match m.body with
        | .echo id2 _ data2 =>
          if data2 = neededBody ∧ id2 = echoID then some (.found peer) else none
        | _ => none
      else none

/-- `listenForSpecific4` over a finite prefix of read events.  A read
error that is a `*net.OpError` is returned (`return "", []byte{}, neterr`);
any other non-nil read error evaluates `neterr.Temporary()` on a nil
`neterr` and panics. -/
def listenForSpecific4 (neededBody : List Nat) (echoID needSeq : Nat)
    (sent : List Nat) : List NetEvent → ListenOutcome
  | [] => .pending
  | .readErr isOp :: _ => if isOp then .hardErr else .panicked
  | .packet data peer :: rest =>
    match handlePacket4 neededBody echoID needSeq sent data peer with
    | some out => out
    | none => listenForSpecific4 neededBody echoID needSeq sent rest

/-- The body of `listenForSpecific6`'s loop for one inbound datagram.

Go flow: a Time Exceeded (type 3) slices `body[40:]` — a Go slice-bounds
panic when the embedded data is shorter than 40 bytes — then re-parses
with the error discarded (`x, _ :=`), so a failed re-parse again panics
on the nil `x.Body`; an Echo Reply (type 129) matches as in IPv4. -/
def handlePacket6 (neededBody : List Nat) (echoID needSeq : Nat)
    (data : List Nat) (peer : String) : Option ListenOutcome :=
  if data.length = 0 then none
  else
    match parseMessage6 data with
    | none => none
    | some m =>
      if m.type = 3 then
        match m.body with
        | .timeExceeded body =>
          if body.length < 40 then some .panicked
          else
            match parseMessage6 (body.drop 40) with
            | none => some .panicked
            | some m2 =>
              match m2.body with
              | .echo id2 seq2 _ =>
                if id2 = echoID ∧ seq2 = needSeq then some (.found peer) else none
              | _ => none
        | _ => none
      else if m.type = 129 then
        match m.body with
        | .echo id2 _ data2 =>
          if data2 = neededBody ∧ id2 = echoID then some (.found peer) else none
        | _ => none
      else none

/-- `listenForSpecific6` over a finite prefix of read events.  Here only
a `*net.OpError` read error returns; any other read error falls through
to the `n == 0` check and the loop continues. -/
def listenForSpecific6 (neededBody : List Nat) (echoID needSeq : Nat) :
    List NetEvent → ListenOutcome
  | [] => .pending
  | .readErr isOp :: rest =>
    if isOp then .hardErr else listenForSpecific6 neededBody echoID needSeq rest
  | .packet data peer :: rest =>
    match handlePacket6 neededBody echoID needSeq data peer with
    | some out => out
    | none => listenForSpecific6 neededBody echoID needSeq rest

/- ------------------------------------------------------------------ -/
/- §3  The ICMP probe engine (`ICMPProber`).                           -/
/- ------------------------------------------------------------------ -/

/-- The error values `ICMPProber.Probe` can return: the
`"invalid IP address: %s"` configuration error, a socket setup error
(`ListenPacket` / `SetTTL` / `SetHopLimit` / `SetDeadline`), or a socket
I/O error (`WriteTo`, or an error returned by the listen loop — which
includes the read-deadline expiry). -/
inductive GoErr where
  | invalidIP (addr : String)
  | setupErr
  | sockErr
deriving DecidableEq, Repr

/-- Outcome of a Go call in this embedding: a normal return value, a
non-nil error (with a nil result, as in the source), a runtime panic, or
a read that never resolved within the supplied event prefix. -/
inductive GoOutcome (α : Type) where
  | ok (a : α)
  | err (e : GoErr)
  | panicked
  | blocked
deriving DecidableEq, Repr

/-- Oracle for everything one `icmpIPv4` / `icmpIPv6` call gets from the
operating system: whether each setup step succeeds, the inbound read
events, and the wall-clock elapsed time `time.Since(start)` observed on
success. -/
structure SockOracle where
  listenOK : Bool
  setTTLOK : Bool
  setDeadlineOK : Bool
  writeOK : Bool
  events : List NetEvent
  elapsed : Int
deriving Repr

/-- The anonymous `hop` struct returned by `icmpIPv4` / `icmpIPv6`. -/
structure Hop where
  success : Bool
  elapsed : Int
  addr : String
deriving DecidableEq, Repr

/-- `icmpIPv4`: open the socket, set TTL and deadline, marshal and send
the echo request, then block in `listenForSpecific4`.  Every setup or
socket failure returns a non-nil error with `hop.Success` still false;
on a matched reply the hop carries the elapsed time and the peer.
Alongside the outcome the packet handed to `WriteTo` is returned
(`none` when execution failed before the write). -/
def icmpIPv4 (s : SockOracle) (echoID seq : Nat) :
    GoOutcome Hop × Option (List Nat) :=
  if ¬ s.listenOK then (.err .setupErr, none)
  else if ¬ s.setTTLOK then (.err .setupErr, none)
  else if ¬ s.setDeadlineOK then (.err .setupErr, none)
  else if ¬ s.writeOK then (.err .sockErr, some (icmpEncode4 echoID seq))
  else
    match listenForSpecific4 (neededBodyOf seq) echoID seq
        (icmpEncode4 echoID seq) s.events with
    | .found peer => (.ok ⟨true, s.elapsed, peer⟩, some (icmpEncode4 echoID seq))
    | .hardErr => (.err .sockErr, some (icmpEncode4 echoID seq))
    | .panicked => (.panicked, some (icmpEncode4 echoID seq))
    | .pending => (.blocked, some (icmpEncode4 echoID seq))

/-- `icmpIPv6`: as `icmpIPv4` with hop limit instead of TTL and the IPv6
wire format and listen loop.  (`listenForSpecific6` does not take the
sent bytes.) -/
def icmpIPv6 (s : SockOracle) (echoID seq : Nat) :
    GoOutcome Hop × Option (List Nat) :=
  if ¬ s.listenOK then (.err .setupErr, none)
  else if ¬ s.setTTLOK then (.err .setupErr, none)
  else if ¬ s.setDeadlineOK then (.err .setupErr, none)
  else if ¬ s.writeOK then (.err .sockErr, some (icmpEncode6 echoID seq))
  else
    match listenForSpecific6 (neededBodyOf seq) echoID seq s.events with
    | .found peer => (.ok ⟨true, s.elapsed, peer⟩, some (icmpEncode6 echoID seq))
    | .hardErr => (.err .sockErr, some (icmpEncode6 echoID seq))
    | .panicked => (.panicked, some (icmpEncode6 echoID seq))
    | .pending => (.blocked, some (icmpEncode6 echoID seq))

/-- `IcmpID.Get`: `uint16(atomic.AddUint32(&c.counter, 1) % 65535)` —
the identifier produced when the allocator's counter currently holds
`c`.  The result of the 32-bit add is reduced modulo 65535 and the
`uint16` cast is then the identity. -/
def icmpIDGet (c : Nat) : Nat := ((c + 1) % 4294967296) % 65535

/-- `NewICMPProber()` holds a fresh `IcmpID` whose zero-valued counter
is 0. -/
def newICMPProberCounter : Nat := 0

/-- The result of `net.ParseIP` as far as `Probe` consumes it:
`isV4` models `ip.To4() != nil`. -/
structure GoIP where
  isV4 : Bool
deriving DecidableEq, Repr

/-- `Target[ICMPExtention]` with the fields `ICMPProber.Probe` reads. -/
structure ICMPTarget where
  address : String
  timeout : Int
  count : Int
  ttl : Int
  sourceIP : String
  enableV6 : Bool
  sequence : Int
  size : Int
deriving DecidableEq, Repr

/-- `ICMPResult` with the fields `Probe` assigns. -/
structure ICMPResult where
  success : Bool
  duration : Int
  address : String
  sequence : Int
  size : Int
deriving DecidableEq, Repr

/-- The effective sequence number of `ICMPProber.Probe`:
`seq := 1` unless `target.Extention.Sequence` is positive. -/
def effSeq (t : ICMPTarget) : Int := if t.sequence > 0 then t.sequence else 1

/-- `ICMPProber.Probe`: parse the address (`nil` ⇒ the
`"invalid IP address"` error before any socket work), pick the family,
default TTL to 64 and sequence to 1, draw an echo identifier from the
prober's allocator and run `sendICMP`.  On any error from the engine the
Go code returns `nil, err` — no result carrying `Success = false` is
produced.  `parsed` is the `net.ParseIP(target.Address)` oracle and `c`
the prober's allocator counter; the second component is the wire packet
written, if any. -/
def icmpProbe (parsed : Option GoIP) (c : Nat) (s : SockOracle)
    (t : ICMPTarget) : GoOutcome ICMPResult × Option (List Nat) :=
  match parsed with
  | none => (.err (.invalidIP t.address), none)
  | some ip =>
    let isIPv6 := ¬ ip.isV4 ∧ t.enableV6
    let seq : Int := effSeq t
    let echoID := icmpIDGet c
    match (if isIPv6 then icmpIPv6 s echoID seq.toNat
           else icmpIPv4 s echoID seq.toNat) with
    | (.ok hop, w) =>
      (.ok ⟨hop.success, hop.elapsed, hop.addr, t.sequence, t.size⟩, w)
    | (.err e, w) => (.err e, w)
    | (.panicked, w) => (.panicked, w)
    | (.blocked, w) => (.blocked, w)

/- ------------------------------------------------------------------ -/
/- §4  MTR orchestration (`MTRProber`, `hopStat`, assembly).           -/
/- ------------------------------------------------------------------ -/

/-- `Target[MTRExtention]` with the fields the MTR path reads. -/
structure MTRTarget where
  address : String
  timeout : Int
  count : Int
  maxHops : Int
  resolvePtr : Bool
  ttl : Int
  sourceIP : String
  enableV6 : Bool
  sequence : Int
  size : Int
deriving DecidableEq, Repr

/-- `Target.GetCount`: `Count` defaults to 1 when it is zero. -/
def getCount (t : MTRTarget) : Int := if t.count = 0 then 1 else t.count

/-- The effective hop bound in `MTRProber.Probe`: `MaxHops` when
positive, else 30. -/
def effMaxHops (t : MTRTarget) : Int :=
  if t.maxHops > 0 then t.maxHops else 30

/-- The ttl values swept by `for ttl := 1; ttl <= maxHops; ttl++`:
`1, 2, …, maxHops`. -/
def ttlSweep (t : MTRTarget) : List Nat :=
  List.range' 1 (effMaxHops t).toNat

/-- The `Target[ICMPExtention]` that `probeHop` builds for one hop probe
(`Count` is fixed to 1; TTL is the sweep position; the other ICMP
parameters are copied from the MTR target). -/
def probeHopTarget (t : MTRTarget) (ttl : Nat) : ICMPTarget :=
  { address := t.address, timeout := t.timeout, count := 1
    ttl := Int.ofNat ttl, sourceIP := t.sourceIP, enableV6 := t.enableV6
    sequence := t.sequence, size := t.size }

/-- What `probeHop` extracts from a successful ICMP result: the
responding address and its `Duration` (stored in `MTRHop.LastRTT`). -/
structure HopReply where
  addr : String
  rtt : Int
deriving DecidableEq, Repr

/-- `probeHop`: build the ICMP target, probe it with a brand-new
`NewICMPProber()` (whose allocator counter is the zero value), and
repackage the result; errors pass through. -/
def probeHop (parsed : Option GoIP) (s : SockOracle) (t : MTRTarget)
    (ttl : Nat) : GoOutcome HopReply × Option (List Nat) :=
  match icmpProbe parsed newICMPProberCounter s (probeHopTarget t ttl) with
  | (.ok r, w) => (.ok ⟨r.address, r.duration⟩, w)
  | (.err e, w) => (.err e, w)
  | (.panicked, w) => (.panicked, w)
  | (.blocked, w) => (.blocked, w)

/-- `hopStat` (http.go): the per-address running statistics record. -/
structure hopStat where
  ttl : Nat
  address : String
  lastRTT : Int
  bestRTT : Int
  worstRTT : Int
  sumRTT : Int
  sent : Nat
  received : Nat
  rtts : List Int
deriving DecidableEq, Repr

/-- The zero-valued `hopStat` fields as created by `getOrCreateHopStat`
(only `address` and `ttl` are set). -/
def newHopStat (ttl : Nat) (addr : String) : hopStat :=
  { ttl := ttl, address := addr, lastRTT := 0, bestRTT := 0, worstRTT := 0
    sumRTT := 0, sent := 0, received := 0, rtts := [] }

/-- `hopStat.update`: `sent` always increments; a positive rtt also
increments `received`, records the sample, and updates best (seeded when
still zero) and worst. -/
def hopStat.update (h : hopStat) (rtt : Int) : hopStat :=
  let h := { h with sent := h.sent + 1 }
  if rtt > 0 then
    { h with
      received := h.received + 1
      lastRTT := rtt
      sumRTT := h.sumRTT + rtt
      rtts := h.rtts ++ [rtt]
      bestRTT := if h.bestRTT = 0 ∨ rtt < h.bestRTT then rtt else h.bestRTT
      worstRTT := if rtt > h.worstRTT then rtt else h.worstRTT }
  else h

/-- `hopStat.avgRTT`: `sumRTT / Duration(received)` with Go's truncating
integer division, 0 when nothing was received. -/
def hopStat.avgRTT (h : hopStat) : Int :=
  if h.received = 0 then 0 else Int.tdiv h.sumRTT (h.received : Int)

/-- `hopStat.lossRate`: `(sent − received) / sent` — the `float64`
quotient is modelled as an exact rational. -/
def hopStat.lossRate (h : hopStat) : ℚ :=
  if h.sent = 0 then 0 else ((h.sent : ℚ) - (h.received : ℚ)) / (h.sent : ℚ)

/-- The `map[string]*hopStat` of one `MTRProber.Probe` call, as an
insertion-ordered list; the final hop list is sorted by ttl, so Go's
unspecified map-iteration order is immaterial. -/
def Stats := List hopStat

/-- The Go map-lookup test `if stat, exists := stats[addr]; exists`. -/
def hasAddr (stats : List hopStat) (addr : String) : Bool :=
  stats.any (fun st => st.address == addr)

/-- `stat.update` through the pointer held for `addr`: update the (at
most one) entry carrying that address in place. -/
def updateStat (stats : List hopStat) (addr : String) (rtt : Int) : List hopStat :=
  stats.map (fun st => if st.address = addr then st.update rtt else st)

/-- `getOrCreateHopStat` followed by `stat.update(rtt)` on the returned
pointer: update the entry for `addr` in place, creating it first with
`ttl = len(stats) + 1` when absent. -/
def touchStat (stats : List hopStat) (addr : String) (rtt : Int) : List hopStat :=
  if hasAddr stats addr then updateStat stats addr rtt
  else stats ++ [(newHopStat (stats.length + 1) addr).update rtt]

/-- The `for i := 0; i < target.GetCount()-1; i++` loop of extra probes
after the target answered: each successful probe feeds the stat that was
resolved for the first reply's address (`stat.update(hop.LastRTT)`);
errors are swallowed.  `attempts` is the list of attempt indices and
`probeAt i` the oracle for extra attempt `i`. -/
def extraProbes (probeAt : Nat → Option HopReply) (addr : String) :
    List Nat → List hopStat → List hopStat
  | [], stats => stats
  | i :: rest, stats =>
    match probeAt i with
    | some h => extraProbes probeAt addr rest (updateStat stats addr h.rtt)
    | none => extraProbes probeAt addr rest stats

/-- The TTL sweep of `MTRProber.Probe`.  `oracle ttl 0` is the outcome of
the sweep probe at `ttl` (`none` = `probeHop` returned an error, which
the loop swallows with `continue`); `oracle ttl (i+1)` is extra attempt
`i` at that ttl.  Returns the final stats and the trace of `(ttl,
attempt)` pairs in the order `probeHop` was invoked; reaching the target
address runs the extra probes and breaks the sweep. -/
def mtrSweep (oracle : Nat → Nat → Option HopReply) (targetAddr : String)
    (extra : Nat) : List Nat → List hopStat → List hopStat × List (Nat × Nat)
  | [], stats => (stats, [])
  | ttl :: rest, stats =>
    match oracle ttl 0 with
    | none =>
      let r := mtrSweep oracle targetAddr extra rest stats
      (r.1, (ttl, 0) :: r.2)
    | some hop =>
      let stats1 := touchStat stats hop.addr hop.rtt
      if hop.addr = targetAddr then
        (extraProbes (fun i => oracle ttl i) hop.addr
            ((List.range extra).map (· + 1)) stats1,
         (ttl, 0) :: (List.range extra).map (fun i => (ttl, i + 1)))
      else
        let r := mtrSweep oracle targetAddr extra rest stats1
        (r.1, (ttl, 0) :: r.2)

/-- `MTRHop` with the fields assembly assigns.  `StdDevRTT` is absent
from the composite literal in `MTRProber.Probe`, so it keeps Go's zero
value; `Loss` (a `float64` percentage) is modelled exactly as a
rational. -/
structure MTRHop where
  ttl : Nat
  address : String
  hostname : String
  loss : ℚ
  lastRTT : Int
  avgRTT : Int
  bestRTT : Int
  worstRTT : Int
  stdDevRTT : Int
  sent : Nat
  received : Nat
deriving DecidableEq, Repr

/-- Assembly of one `MTRHop` from its `hopStat` (the loop body over
`hopStats` in `MTRProber.Probe`).  `resolve` is the `net.LookupAddr`
collaborator: `none` stands for an error or an empty name list, in which
case the hostname stays empty. -/
def compileHop (resolve : String → Option String) (resolvePtr : Bool)
    (st : hopStat) : MTRHop :=
  { ttl := st.ttl
    address := st.address
    hostname := if resolvePtr then (resolve st.address).getD "" else ""
    loss := st.lossRate * 100
    lastRTT := st.lastRTT
    avgRTT := st.avgRTT
    bestRTT := st.bestRTT
    worstRTT := st.worstRTT
    stdDevRTT := 0
    sent := st.sent
    received := st.received }

/-- The comparison `hopsByTTL` sorts with (`Less` is `TTL <`; ttl values
are pairwise distinct in every reachable state, so any comparison sort —
Go's `sort.Sort` included — produces the same list as this insertion
sort by `≤`). -/
def hopLE (a b : MTRHop) : Prop := a.ttl ≤ b.ttl

instance : DecidableRel hopLE := fun a b => Nat.decLe a.ttl b.ttl

instance : IsTotal MTRHop hopLE := ⟨fun a b => Nat.le_total a.ttl b.ttl⟩

instance : IsTrans MTRHop hopLE := ⟨fun _ _ _ => Nat.le_trans⟩

/-- `sort.Sort(hopsByTTL(hops))`. -/
def sortHops (hops : List MTRHop) : List MTRHop :=
  List.insertionSort hopLE hops

/-- `MTRResult` with the fields `Probe` assigns. -/
structure MTRResult where
  success : Bool
  hops : List MTRHop
deriving DecidableEq, Repr

/-- `MTRProber.Probe`: sweep the ttl range feeding `hopStats`, assemble
one `MTRHop` per stat, sort by ttl, and return with `Success = true` and
a nil error — the only exits of the Go function.  `proberCounter` is the
`MTRProber.icmpID` allocator state (the field exists on the struct but
is never consulted by `Probe` or `probeHop`); `oracle` abstracts
`probeHop` (`oracle ttl 0` the sweep probe, `oracle ttl (i+1)` extra
attempt `i`).  The trace of issued probes is returned alongside. -/
def mtrProbe (proberCounter : Nat) (oracle : Nat → Nat → Option HopReply)
    (resolve : String → Option String) (t : MTRTarget) :
    (MTRResult × Option GoErr) × List (Nat × Nat) :=
  let _ := proberCounter
  let r := mtrSweep oracle t.address (getCount t - 1).toNat (ttlSweep t) []
  ((⟨true, sortHops (r.1.map (compileHop resolve t.resolvePtr))⟩, none), r.2)

/-- `GoOutcome` collapsed to what the MTR sweep can observe from
`probeHop`: `if err != nil { continue }` distinguishes only success from
error.  (A panicking or forever-blocking hop probe would abort the whole
call; the composed runs below are used only where that cannot happen.) -/
def toOpt {α : Type} : GoOutcome α × Option (List Nat) → Option α
  | (.ok a, _) => some a
  | _ => none

/-- `MTRProber.Probe` composed with the real `probeHop` chain:
`parsed` is `net.ParseIP(target.Address)` (the same value at every hop,
the address being fixed for the call) and `socks ttl i` the socket
oracle of the probe at `(ttl, attempt i)`. -/
def mtrProbeFull (proberCounter : Nat) (parsed : Option GoIP)
    (socks : Nat → Nat → SockOracle) (resolve : String → Option String)
    (t : MTRTarget) : (MTRResult × Option GoErr) × List (Nat × Nat) :=
  mtrProbe proberCounter
    (fun ttl i => toOpt (probeHop parsed (socks ttl i) t ttl)) resolve t

/- ------------------------------------------------------------------ -/
/- §5  Concrete fixtures for witnesses and counterexamples.            -/
/- ------------------------------------------------------------------ -/

/-- A socket oracle whose setup succeeds and whose reads produce the
given events. -/
def okSock (events : List NetEvent) : SockOracle :=
  { listenOK := true, setTTLOK := true, setDeadlineOK := true
    writeOK := true, events := events, elapsed := 5000000 }

/-- An IPv4 probe target for `1.1.1.1` with a one-second timeout and
every extension field left at its zero value. -/
def t4 : ICMPTarget :=
  { address := "1.1.1.1", timeout := 1000000000, count := 1, ttl := 0
    sourceIP := "", enableV6 := false, sequence := 0, size := 0 }

/-- An MTR target whose address `net.ParseIP` cannot parse. -/
def badTarget : MTRTarget :=
  { address := "not-an-ip", timeout := 1000000000, count := 1, maxHops := 0
    resolvePtr := false, ttl := 0, sourceIP := "", enableV6 := false
    sequence := 0, size := 0 }

/-- A legitimate IPv4 echo reply for id 1, seq 1 (checksum bytes are not
verified by `icmp.ParseMessage`, so they are left zero here). -/
def legitReply4 : List Nat := [0, 0, 0, 0, 0, 1, 0, 1] ++ neededBodyOf 1

/-- A legitimate IPv6 echo reply for id 1, seq 1. -/
def legitReply6 : List Nat := [129, 0, 0, 0, 0, 1, 0, 1] ++ neededBodyOf 1

/-- The 16-bit echo identifier embedded in a marshaled echo request:
bytes 4 and 5, big-endian — the same layout for the IPv4 and the IPv6
wire format. -/
def wireEchoID (b : List Nat) : Nat := b.getD 4 0 * 256 + b.getD 5 0

/-- The invariant `hopStat.update` maintains: nothing recorded while no
sample was received; with `received > 0` the best sample is positive,
bounded by the worst, and the running sum lies between `best·received`
and `worst·received`. -/
def statSound (h : hopStat) : Prop :=
  (h.received = 0 → h.bestRTT = 0 ∧ h.worstRTT = 0 ∧ h.sumRTT = 0) ∧
  (0 < h.received →
    0 < h.bestRTT ∧ h.bestRTT ≤ h.worstRTT ∧
    h.bestRTT * (h.received : Int) ≤ h.sumRTT ∧
    h.sumRTT ≤ h.worstRTT * (h.received : Int))

/-- The `hopStat` reached from a freshly created entry by a sequence of
`update` calls (the only way the orchestrator ever builds one). -/
def runUpdates (ttl : Nat) (addr : String) (rtts : List Int) : hopStat :=
  rtts.foldl hopStat.update (newHopStat ttl addr)

/-- Well-formedness of the stats map: no two entries share an address,
and the ttl column is exactly `1, 2, …, n` in insertion order (the `ttl
:= len(stats) + 1` discipline of `getOrCreateHopStat`). -/
def statsWF (stats : List hopStat) : Prop :=
  (stats.map hopStat.address).Nodup ∧
  stats.map hopStat.ttl = List.range' 1 stats.length

/-- A target that answers at ttl 1, probed with `Count = 2` so that the
one extra probe yields a second RTT sample. -/
def reached1Target : MTRTarget :=
  { address := "203.0.113.9", timeout := 1000000000, count := 2, maxHops := 5
    resolvePtr := false, ttl := 0, sourceIP := "", enableV6 := false
    sequence := 0, size := 0 }

/-- Hop-probe oracle for `reached1Target`: the target answers the sweep
probe at ttl 1 with RTT 7 and the extra probe with RTT 9. -/
def reached1Oracle : Nat → Nat → Option HopReply := fun ttl i =>
  if ttl = 1 then
    (if i = 0 then some ⟨"203.0.113.9", 7⟩ else some ⟨"203.0.113.9", 9⟩)
  else none

/-- A target that never answers, with `MaxHops = 2`: only a middle
router answers at ttl 1. -/
def neverTarget : MTRTarget :=
  { address := "203.0.113.9", timeout := 1000000000, count := 1, maxHops := 2
    resolvePtr := false, ttl := 0, sourceIP := "", enableV6 := false
    sequence := 0, size := 0 }

/-- Hop-probe oracle for `neverTarget`. -/
def neverOracle : Nat → Nat → Option HopReply := fun ttl i =>
  if ttl = 1 ∧ i = 0 then some ⟨"192.0.2.1", 5⟩ else none

/-- The scenario of the claim: `MaxHops = 5`, `Count = 3`, target
answering only at ttl 5 (a router answers at ttl 1). -/
def reach5Target : MTRTarget :=
  { address := "198.51.100.99", timeout := 1000000000, count := 3, maxHops := 5
    resolvePtr := false, ttl := 0, sourceIP := "", enableV6 := false
    sequence := 0, size := 0 }

/-- Hop-probe oracle for `reach5Target`: the target answers every probe
at ttl 5 (sweep and extras), one router answers at ttl 1, everything
else times out. -/
def reach5Oracle : Nat → Nat → Option HopReply := fun ttl i =>
  if ttl = 5 then some ⟨"198.51.100.99", 11⟩
  else if ttl = 1 ∧ i = 0 then some ⟨"192.0.2.1", 3⟩
  else none

/- ------------------------------------------------------------------ -/
/- §6  The claims.                                                     -/
/- ------------------------------------------------------------------ -/

/-- **C9**: encoding an IPv4 echo request carrying `{id, seq}` (type 8,
code 0, payload = 4 little-endian sequence bytes then the marker byte)
and decoding the bytes with the peer-side decoder
(`icmp.ParseMessage(protocolICMP, ·)`) recovers the same `{id, seq}`
pair, for every identifier and sequence number in the 16-bit range the
wire format carries. -/
theorem echo_request_roundtrip (id seq : Nat) (hid : id < 65536)
    (hseq : seq < 65536) :
    parseMessage4 (icmpEncode4 id seq) =
      some ⟨8, 0, .echo id seq ([seq % 256, seq / 256 % 256, 0, 0] ++ [markerByte])⟩ := by
  have h1 : id / 256 % 256 * 256 + id % 256 = id := by omega
  have h2 : seq / 256 % 256 * 256 + seq % 256 = seq := by omega
  have h3 : seq / 65536 % 256 = 0 := by omega
  have h4 : seq / 16777216 % 256 = 0 := by omega
  simp [icmpEncode4, echoBody, neededBodyOf, seqLE, parseMessage4, h1, h2, h3, h4]

/-- Witness for `echo_request_roundtrip` at `id = 513`, `seq = 77`. -/
theorem echo_request_roundtrip_witness :
    513 < 65536 ∧ 77 < 65536 ∧
    parseMessage4 (icmpEncode4 513 77) =
      some ⟨8, 0, .echo 513 77 ([77 % 256, 77 / 256 % 256, 0, 0] ++ [markerByte])⟩ :=
  ⟨by decide, by decide, echo_request_roundtrip 513 77 (by decide) (by decide)⟩

/-- **C1 counterexample**: with a working socket whose first read hits
the deadline (`ReadFrom` returns a `*net.OpError`), `ICMPProber.Probe`
returns a hard error — not an `ICMPResult` with `success = false` as the
claim states. -/
theorem icmp_timeout_hard_error_cex :
    (icmpProbe (some ⟨true⟩) newICMPProberCounter (okSock [.readErr true]) t4).1 =
      GoOutcome.err GoErr.sockErr ∧
    ¬ ∃ r : ICMPResult,
      (icmpProbe (some ⟨true⟩) newICMPProberCounter (okSock [.readErr true]) t4).1 =
        GoOutcome.ok r ∧ r.success = false := by
  have h : (icmpProbe (some ⟨true⟩) newICMPProberCounter
      (okSock [.readErr true]) t4).1 = GoOutcome.err GoErr.sockErr := by decide
  refine ⟨h, ?_⟩
  rintro ⟨r, hr, -⟩
  rw [h] at hr
  cases hr

/-- **C1** (amended): when the read loop ends with a read error — the
elapsed deadline included, since `SetDeadline` makes `ReadFrom` return a
`*net.OpError` — `listenForSpecific4/6` returns the error and
`ICMPProber.Probe` propagates it as a hard error with a nil result; no
`success = false` result is produced.  (The MTR orchestrator swallows it
like any other per-hop error.) -/
theorem icmp_timeout_propagates_error (ip : GoIP) (c : Nat) (s : SockOracle)
    (t : ICMPTarget)
    (hsetup : s.listenOK = true ∧ s.setTTLOK = true ∧
      s.setDeadlineOK = true ∧ s.writeOK = true)
    (hlisten :
      (if ¬ ip.isV4 ∧ t.enableV6 then
        listenForSpecific6 (neededBodyOf (effSeq t).toNat) (icmpIDGet c)
          (effSeq t).toNat s.events
      else
        listenForSpecific4 (neededBodyOf (effSeq t).toNat) (icmpIDGet c)
          (effSeq t).toNat (icmpEncode4 (icmpIDGet c) (effSeq t).toNat)
          s.events) = .hardErr) :
    (icmpProbe (some ip) c s t).1 = GoOutcome.err GoErr.sockErr ∧
    ∀ r : ICMPResult, (icmpProbe (some ip) c s t).1 ≠ GoOutcome.ok r := by
  obtain ⟨h1, h2, h3, h4⟩ := hsetup
  have key : (icmpProbe (some ip) c s t).1 = GoOutcome.err GoErr.sockErr := by
    cases hI : ip.isV4 <;> cases hE : t.enableV6 <;>
      simp only [hI, hE, Bool.not_true, Bool.not_false, Bool.false_and,
        Bool.true_and, Bool.and_true, Bool.and_false, not_false_eq_true,
        not_true_eq_false, false_and, true_and, and_true, and_false,
        if_true, if_false, ite_true, ite_false] at hlisten <;>
      simp [icmpProbe, icmpIPv6, icmpIPv4, hI, hE, h1, h2, h3, h4] at hlisten ⊢ <;>
      simp [hlisten]
  exact ⟨key, fun r hr => by rw [key] at hr; cases hr⟩

/-- Witness for `icmp_timeout_propagates_error` on the concrete timeout
run of the counterexample. -/
theorem icmp_timeout_propagates_error_witness :
    (icmpProbe (some ⟨true⟩) 0 (okSock [.readErr true]) t4).1 =
      GoOutcome.err GoErr.sockErr ∧
    ∀ r : ICMPResult,
      (icmpProbe (some ⟨true⟩) 0 (okSock [.readErr true]) t4).1 ≠ GoOutcome.ok r :=
  icmp_timeout_propagates_error ⟨true⟩ 0 (okSock [.readErr true]) t4
    ⟨rfl, rfl, rfl, rfl⟩ (by decide)

/-- **C2** (code bug): a malformed Time Exceeded message crashes the
read loop instead of being skipped.  (1) In the IPv6 loop a Time
Exceeded whose embedded datagram is shorter than 40 bytes panics on the
`body[40:]` slice, so a legitimate reply queued right behind it is never
matched.  (2) In the IPv4 loop a Time Exceeded whose embedded datagram
is truncated just after the correlation token makes the re-parse fail,
and the discarded-error `x, _ := icmp.ParseMessage(...)` is followed by
a nil dereference of `x.Body`.  (3) Only packets that fail the top-level
parse are skipped as the claim describes, with the later reply still
matched. -/
theorem malformed_time_exceeded_crashes_listen :
    listenForSpecific6 (neededBodyOf 1) 1 1
      [.packet [3, 0, 0, 0, 0, 0, 0, 0] "2001:db8::9",
       .packet legitReply6 "2001:db8::1"] = .panicked ∧
    listenForSpecific4 (neededBodyOf 1) 1 1 (icmpEncode4 1 1)
      [.packet ([11, 0, 0, 0, 0, 0, 0, 0, 0] ++ (icmpEncode4 1 1).take 4) "192.0.2.1",
       .packet legitReply4 "198.51.100.7"] = .panicked ∧
    listenForSpecific4 (neededBodyOf 1) 1 1 (icmpEncode4 1 1)
      [.packet [1, 2] "192.0.2.1", .packet legitReply4 "198.51.100.7"] =
      .found "198.51.100.7" :=
  ⟨by decide, by decide, by decide⟩

/-- The MTR sweep when every hop probe errors: no stat is ever created
and every ttl is visited. -/
theorem mtrSweep_all_none (oracle : Nat → Nat → Option HopReply)
    (tA : String) (e : Nat) (hn : ∀ ttl, oracle ttl 0 = none) :
    ∀ ttls stats,
      mtrSweep oracle tA e ttls stats = (stats, ttls.map (fun k => (k, 0)))
  | [], _ => rfl
  | ttl :: rest, stats => by
    simp [mtrSweep, hn ttl, mtrSweep_all_none oracle tA e hn rest stats]

/-- **C3 counterexample**: an MTR probe of the unparseable address
`"not-an-ip"` does not fail: every per-hop probe returns the
`invalid IP address` error, the sweep swallows all of them, and the call
returns `Success = true` with a nil error and an empty hop list. -/
theorem mtr_invalid_address_cex :
    (mtrProbeFull 0 none (fun _ _ => okSock []) (fun _ => none) badTarget).1 =
      ({ success := true, hops := [] }, none) := by
  have h := mtrSweep_all_none
    (fun ttl i => toOpt (probeHop none ((fun _ _ => okSock []) ttl i) badTarget ttl))
    badTarget.address (getCount badTarget - 1).toNat (fun _ => rfl)
    (ttlSweep badTarget) []
  simp [mtrProbeFull, mtrProbe, h, sortHops]

/-- **C3** (amended): an invalid/unparseable target address never fails
the MTR call.  Each per-hop ICMP probe fails up front with the
invalid-address error — before any socket I/O: nothing is written and
the outcome does not depend on the socket oracle — the orchestrator
swallows those errors, sweeps every ttl, and returns `Success = true`,
a nil error, and an empty hop list. -/
theorem mtr_invalid_address_swallowed (pc : Nat)
    (socks : Nat → Nat → SockOracle) (resolve : String → Option String)
    (t : MTRTarget) (s : SockOracle) (ttl : Nat) :
    probeHop none s t ttl = (GoOutcome.err (GoErr.invalidIP t.address), none) ∧
    (mtrProbeFull pc none socks resolve t).1 =
      ({ success := true, hops := [] }, none) ∧
    (mtrProbeFull pc none socks resolve t).2 =
      (ttlSweep t).map (fun k => (k, 0)) := by
  have h := mtrSweep_all_none
    (fun ttl i => toOpt (probeHop none (socks ttl i) t ttl))
    t.address (getCount t - 1).toNat (fun _ => rfl) (ttlSweep t) []
  refine ⟨rfl, ?_, ?_⟩
  · simp only [mtrProbeFull, mtrProbe, h]
    simp [sortHops]
  · simp only [mtrProbeFull, mtrProbe, h]


/-- The packet an `icmpIPv4` run hands to `WriteTo` is the marshaled
echo request for its identifier and sequence, when anything is written
at all. -/
theorem icmpIPv4_wire (s : SockOracle) (e q : Nat) :
    (icmpIPv4 s e q).2 = none ∨ (icmpIPv4 s e q).2 = some (icmpEncode4 e q) := by
  unfold icmpIPv4
  repeat' split
  all_goals first
  | exact Or.inl rfl
  | exact Or.inr rfl

/-- As `icmpIPv4_wire`, for the IPv6 path. -/
theorem icmpIPv6_wire (s : SockOracle) (e q : Nat) :
    (icmpIPv6 s e q).2 = none ∨ (icmpIPv6 s e q).2 = some (icmpEncode6 e q) := by
  unfold icmpIPv6
  repeat' split
  all_goals first
  | exact Or.inl rfl
  | exact Or.inr rfl

/-- The wire packet of an `ICMPProber.Probe` run: nothing, or the echo
request marshaled with the identifier drawn from the prober's allocator
and the effective sequence. -/
theorem icmpProbe_wire (parsed : Option GoIP) (c : Nat) (s : SockOracle)
    (t : ICMPTarget) :
    (icmpProbe parsed c s t).2 = none ∨
    (icmpProbe parsed c s t).2 =
      some (icmpEncode4 (icmpIDGet c) (effSeq t).toNat) ∨
    (icmpProbe parsed c s t).2 =
      some (icmpEncode6 (icmpIDGet c) (effSeq t).toNat) := by
  cases parsed with
  | none => exact Or.inl rfl
  | some ip =>
    simp only [icmpProbe]
    by_cases hv : ¬ ip.isV4 = true ∧ t.enableV6 = true
    · rw [if_pos hv]
      have h := icmpIPv6_wire s (icmpIDGet c) (effSeq t).toNat
      rcases hq : icmpIPv6 s (icmpIDGet c) (effSeq t).toNat with ⟨o, w⟩
      rw [hq] at h
      cases o <;> rcases h with h | h <;> simp at h <;> simp [h]
    · rw [if_neg hv]
      have h := icmpIPv4_wire s (icmpIDGet c) (effSeq t).toNat
      rcases hq : icmpIPv4 s (icmpIDGet c) (effSeq t).toNat with ⟨o, w⟩
      rw [hq] at h
      cases o <;> rcases h with h | h <;> simp at h <;> simp [h]

/-- `probeHop` writes exactly what its inner freshly-constructed
`ICMPProber`'s `Probe` writes. -/
theorem probeHop_wire (parsed : Option GoIP) (s : SockOracle) (t : MTRTarget)
    (ttl : Nat) :
    (probeHop parsed s t ttl).2 =
      (icmpProbe parsed newICMPProberCounter s (probeHopTarget t ttl)).2 := by
  unfold probeHop
  rcases hq : icmpProbe parsed newICMPProberCounter s (probeHopTarget t ttl)
    with ⟨o, w⟩
  cases o <;> rfl

/-- **C4**: every hop probe issued during an MTR sweep embeds echo
identifier 1 in its outgoing echo request: `probeHop` constructs a
brand-new `ICMPProber` whose fresh zero-valued allocator yields
`uint16((0+1) % 65535) = 1`, for the IPv4 and the IPv6 wire format
alike; and the allocator held by `MTRProber` itself is never consulted —
the whole probe result is independent of its counter.  All probes of all
concurrent MTR sweeps therefore share identifier 1. -/
theorem mtr_echo_identifier_always_one (parsed : Option GoIP) (s : SockOracle)
    (t : MTRTarget) (ttl : Nat) (wb : List Nat)
    (hw : (probeHop parsed s t ttl).2 = some wb) :
    wireEchoID wb = 1 ∧
    ∀ pc pc' oracle resolve,
      mtrProbe pc oracle resolve t = mtrProbe pc' oracle resolve t := by
  refine ⟨?_, fun _ _ _ _ => rfl⟩
  rw [probeHop_wire] at hw
  rcases icmpProbe_wire parsed newICMPProberCounter s (probeHopTarget t ttl)
    with h | h | h
  · rw [h] at hw; cases hw
  · rw [h] at hw; cases hw
    simp [wireEchoID, icmpEncode4, echoBody, neededBodyOf, seqLE, icmpIDGet,
      newICMPProberCounter, markerByte]
  · rw [h] at hw; cases hw
    simp [wireEchoID, icmpEncode6, echoBody, neededBodyOf, seqLE, icmpIDGet,
      newICMPProberCounter, markerByte]

/-- Witness for `mtr_echo_identifier_always_one`: a concrete hop probe
writes the IPv4 echo request whose identifier bytes decode to 1. -/
theorem mtr_echo_identifier_always_one_witness :
    (probeHop (some ⟨true⟩) (okSock []) badTarget 1).2 = some (icmpEncode4 1 1) ∧
    wireEchoID (icmpEncode4 1 1) = 1 :=
  ⟨by decide,
   (mtr_echo_identifier_always_one (some ⟨true⟩) (okSock []) badTarget 1
      (icmpEncode4 1 1) (by decide)).1⟩


/-- **C10**: in every assembled `MTRResult`, every hop's `StdDevRTT`
equals zero — assembly builds the `MTRHop` snapshot without ever
invoking `hopStat.stdDevRTT`, so the field keeps its zero value even
when two or more RTT samples were received: in the concrete run of
`reached1Oracle` the single hop received the two samples 7ns and 9ns
and still reports `StdDevRTT = 0`. -/
theorem mtr_stddev_always_zero (pc : Nat) (oracle : Nat → Nat → Option HopReply)
    (resolve : String → Option String) (t : MTRTarget) :
    (mtrProbe pc oracle resolve t).1.1.hops.map MTRHop.stdDevRTT =
      List.replicate (mtrProbe pc oracle resolve t).1.1.hops.length 0 ∧
    (mtrProbe 0 reached1Oracle (fun _ => none) reached1Target).1.1.hops.map
        (fun h => (h.received, h.stdDevRTT)) = [(2, 0)] := by
  constructor
  · rw [List.eq_replicate_iff]
    refine ⟨by simp, ?_⟩
    intro b hb
    obtain ⟨h, hm, rfl⟩ := List.mem_map.mp hb
    simp only [mtrProbe, sortHops] at hm
    have hm2 := (List.perm_insertionSort hopLE _).mem_iff.mp hm
    obtain ⟨st, -, rfl⟩ := List.mem_map.mp hm2
    rfl
  · decide

/- ------------------------------------------------------------------ -/
/- §7  Running statistics (`hopStat.update`) invariants.               -/
/- ------------------------------------------------------------------ -/

/-- `hopStat.update` when the sample is positive, as one record update. -/
theorem update_pos (h : hopStat) (r : Int) (hr : 0 < r) :
    h.update r = { h with
      sent := h.sent + 1
      received := h.received + 1
      lastRTT := r
      sumRTT := h.sumRTT + r
      rtts := h.rtts ++ [r]
      bestRTT := if h.bestRTT = 0 ∨ r < h.bestRTT then r else h.bestRTT
      worstRTT := if r > h.worstRTT then r else h.worstRTT } := by
  simp only [hopStat.update]
  rw [if_pos hr]

/-- `hopStat.update` when the sample is not positive: only `sent`
advances. -/
theorem update_nonpos (h : hopStat) (r : Int) (hr : ¬ 0 < r) :
    h.update r = { h with sent := h.sent + 1 } := by
  simp only [hopStat.update]
  rw [if_neg hr]


theorem statSound_new (ttl : Nat) (addr : String) :
    statSound (newHopStat ttl addr) := by
  constructor
  · intro _
    exact ⟨rfl, rfl, rfl⟩
  · intro hc
    exact absurd hc (by simp [newHopStat])

theorem statSound_update (h : hopStat) (r : Int) (hs : statSound h) :
    statSound (h.update r) := by
  obtain ⟨h0, hp⟩ := hs
  by_cases hr : 0 < r
  · rw [update_pos h r hr]
    refine ⟨fun hc => by simp at hc, fun _ => ?_⟩
    rcases Nat.eq_zero_or_pos h.received with hz | hpos
    · obtain ⟨hb, hw, hsum⟩ := h0 hz
      simp only [hz, hb, hw, hsum, true_or, if_true]
      rw [if_pos hr]
      refine ⟨hr, le_refl r, ?_, ?_⟩ <;> push_cast <;> nlinarith
    · obtain ⟨hb, hbw, hbs, hsw⟩ := hp hpos
      have hn : (0 : Int) ≤ (h.received : Int) := Int.natCast_nonneg _
      rcases lt_or_ge r h.bestRTT with hrb | hrb
      · have hbest : (if h.bestRTT = 0 ∨ r < h.bestRTT then r else h.bestRTT) = r :=
          if_pos (Or.inr hrb)
        rcases le_or_lt r h.worstRTT with hrw | hrw
        · have hworst : (if r > h.worstRTT then r else h.worstRTT) = h.worstRTT :=
            if_neg (not_lt.mpr hrw)
          simp only [hbest, hworst]
          refine ⟨hr, hrw, ?_, ?_⟩ <;> push_cast <;>
            nlinarith [mul_le_mul_of_nonneg_right (le_of_lt hrb) hn]
        · exact absurd (lt_trans hrw (lt_of_lt_of_le hrb hbw)) (lt_irrefl h.worstRTT)
      · have hbest : (if h.bestRTT = 0 ∨ r < h.bestRTT then r else h.bestRTT) =
            h.bestRTT :=
          if_neg (fun hc => hc.elim (ne_of_gt hb) (not_lt.mpr hrb))
        rcases le_or_lt r h.worstRTT with hrw | hrw
        · have hworst : (if r > h.worstRTT then r else h.worstRTT) = h.worstRTT :=
            if_neg (not_lt.mpr hrw)
          simp only [hbest, hworst]
          refine ⟨hb, hbw, ?_, ?_⟩ <;> push_cast <;> nlinarith
        · have hworst : (if r > h.worstRTT then r else h.worstRTT) = r :=
            if_pos hrw
          simp only [hbest, hworst]
          refine ⟨hb, le_trans hbw (le_of_lt hrw), ?_, ?_⟩ <;> push_cast <;>
            nlinarith [mul_le_mul_of_nonneg_right (le_of_lt hrw) hn]
  · rw [update_nonpos h r hr]
    exact ⟨h0, hp⟩


theorem statSound_foldl (rtts : List Int) :
    ∀ h : hopStat, statSound h → statSound (rtts.foldl hopStat.update h) := by
  induction rtts with
  | nil => exact fun h hs => hs
  | cons r rest ih => exact fun h hs => ih _ (statSound_update h r hs)

theorem update_sumRTT (h : hopStat) (r : Int) :
    (h.update r).sumRTT = if 0 < r then h.sumRTT + r else h.sumRTT := by
  by_cases hr : 0 < r
  · rw [update_pos h r hr, if_pos hr]
  · rw [update_nonpos h r hr, if_neg hr]

theorem update_received (h : hopStat) (r : Int) :
    (h.update r).received =
      if 0 < r then h.received + 1 else h.received := by
  by_cases hr : 0 < r
  · rw [update_pos h r hr, if_pos hr]
  · rw [update_nonpos h r hr, if_neg hr]

theorem foldl_sum_received (rtts : List Int) :
    ∀ h : hopStat,
      (rtts.foldl hopStat.update h).sumRTT =
        h.sumRTT + (rtts.filter (fun r => decide (0 < r))).sum ∧
      (rtts.foldl hopStat.update h).received =
        h.received + (rtts.filter (fun r => decide (0 < r))).length := by
  induction rtts with
  | nil =>
    intro h
    simp
  | cons r rest ih =>
    intro h
    obtain ⟨ihs, ihr⟩ := ih (h.update r)
    rw [update_sumRTT] at ihs
    rw [update_received] at ihr
    by_cases hr : 0 < r
    · rw [if_pos hr] at ihs ihr
      simp only [List.foldl_cons, ihs, ihr, List.filter_cons, hr]
      refine ⟨?_, ?_⟩ <;> simp <;> omega
    · rw [if_neg hr] at ihs ihr
      simp only [List.foldl_cons, ihs, ihr, List.filter_cons, hr]
      refine ⟨?_, ?_⟩ <;> simp

/-- `avgRTT` sits between the recorded best and worst once anything was
received: Go's truncating division agrees with floor division on the
non-negative running sum. -/
theorem avg_between (h : hopStat) (hs : statSound h) (hpos : 0 < h.received) :
    h.bestRTT ≤ h.avgRTT ∧ h.avgRTT ≤ h.worstRTT := by
  obtain ⟨hb, hbw, hbs, hsw⟩ := hs.2 hpos
  have hn : (0 : Int) < (h.received : Int) := by exact_mod_cast hpos
  have hsum0 : 0 ≤ h.sumRTT := le_trans (le_of_lt (mul_pos hb hn)) hbs
  unfold hopStat.avgRTT
  rw [if_neg (Nat.pos_iff_ne_zero.mp hpos), Int.tdiv_eq_ediv hsum0 (le_of_lt hn)]
  constructor
  · exact (Int.le_ediv_iff_mul_le hn).mpr hbs
  · calc h.sumRTT / (h.received : Int)
        ≤ h.worstRTT * (h.received : Int) / (h.received : Int) :=
          Int.ediv_le_ediv hn hsw
      _ = h.worstRTT := Int.mul_ediv_cancel _ (ne_of_gt hn)

/-- **C8**: after any sequence of `update` calls on a fresh `hopStat`,
`bestRTT ≤ avgRTT ≤ worstRTT` whenever `received > 0`, and all three are
zero when `received = 0`; the first positive sample seeds both best and
worst, and the running sum and count are exactly the sum and number of
the positive samples (so `avgRTT` is their truncated quotient). -/
theorem hopStat_rtt_invariants (ttl : Nat) (addr : String) (rtts : List Int) :
    (0 < (runUpdates ttl addr rtts).received →
      (runUpdates ttl addr rtts).bestRTT ≤ (runUpdates ttl addr rtts).avgRTT ∧
      (runUpdates ttl addr rtts).avgRTT ≤ (runUpdates ttl addr rtts).worstRTT) ∧
    ((runUpdates ttl addr rtts).received = 0 →
      (runUpdates ttl addr rtts).bestRTT = 0 ∧
      (runUpdates ttl addr rtts).avgRTT = 0 ∧
      (runUpdates ttl addr rtts).worstRTT = 0) ∧
    (∀ r : Int, 0 < r →
      ((newHopStat ttl addr).update r).bestRTT = r ∧
      ((newHopStat ttl addr).update r).worstRTT = r) ∧
    (runUpdates ttl addr rtts).sumRTT =
      (rtts.filter (fun r => decide (0 < r))).sum ∧
    (runUpdates ttl addr rtts).received =
      (rtts.filter (fun r => decide (0 < r))).length := by
  have hs := statSound_foldl rtts (newHopStat ttl addr) (statSound_new ttl addr)
  obtain ⟨hsum, hrec⟩ := foldl_sum_received rtts (newHopStat ttl addr)
  refine ⟨fun hpos => avg_between _ hs hpos, fun hz => ?_, fun r hr => ?_, ?_, ?_⟩
  · obtain ⟨hb, hw, hsum0⟩ := hs.1 hz
    exact ⟨hb, by simp [hopStat.avgRTT, runUpdates] at hz ⊢; simp [hz], hw⟩
  · exact ⟨by simp [hopStat.update, newHopStat, hr],
      by simp [hopStat.update, newHopStat, hr]⟩
  · simpa [newHopStat, runUpdates] using hsum
  · simpa [newHopStat, runUpdates] using hrec

/-- Witness for `hopStat_rtt_invariants` on the sample run
`[10, 20, 30]`. -/
theorem hopStat_rtt_invariants_witness :
    0 < (runUpdates 1 "192.0.2.1" [10, 20, 30]).received ∧
    (runUpdates 1 "192.0.2.1" [10, 20, 30]).bestRTT ≤
      (runUpdates 1 "192.0.2.1" [10, 20, 30]).avgRTT ∧
    (runUpdates 1 "192.0.2.1" [10, 20, 30]).avgRTT ≤
      (runUpdates 1 "192.0.2.1" [10, 20, 30]).worstRTT :=
  ⟨by decide,
   (hopStat_rtt_invariants 1 "192.0.2.1" [10, 20, 30]).1 (by decide)⟩

/- ------------------------------------------------------------------ -/
/- §8  Well-formedness of the stats map: distinct addresses, ttl keys
       `1, 2, …, n` in insertion order.                                -/
/- ------------------------------------------------------------------ -/

theorem update_address (h : hopStat) (r : Int) :
    (h.update r).address = h.address := by
  by_cases hr : 0 < r
  · rw [update_pos h r hr]
  · rw [update_nonpos h r hr]

theorem update_ttl (h : hopStat) (r : Int) : (h.update r).ttl = h.ttl := by
  by_cases hr : 0 < r
  · rw [update_pos h r hr]
  · rw [update_nonpos h r hr]

theorem updateStat_map_address (stats : List hopStat) (a : String) (r : Int) :
    (updateStat stats a r).map hopStat.address = stats.map hopStat.address := by
  unfold updateStat
  rw [List.map_map]
  apply List.map_congr_left
  intro st _
  by_cases hst : st.address = a
  · simp [hst, update_address]
  · simp [hst]

theorem updateStat_map_ttl (stats : List hopStat) (a : String) (r : Int) :
    (updateStat stats a r).map hopStat.ttl = stats.map hopStat.ttl := by
  unfold updateStat
  rw [List.map_map]
  apply List.map_congr_left
  intro st _
  by_cases hst : st.address = a
  · simp [hst, update_ttl]
  · simp [hst]

theorem touchStat_map_address (stats : List hopStat) (a : String) (r : Int) :
    (touchStat stats a r).map hopStat.address =
      if hasAddr stats a then stats.map hopStat.address
      else stats.map hopStat.address ++ [a] := by
  unfold touchStat
  by_cases hex : hasAddr stats a
  · rw [if_pos hex, if_pos hex, updateStat_map_address]
  · rw [if_neg hex, if_neg hex]
    simp [update_address, newHopStat]

theorem touchStat_map_ttl (stats : List hopStat) (a : String) (r : Int) :
    (touchStat stats a r).map hopStat.ttl =
      if hasAddr stats a then stats.map hopStat.ttl
      else stats.map hopStat.ttl ++ [stats.length + 1] := by
  unfold touchStat
  by_cases hex : hasAddr stats a
  · rw [if_pos hex, if_pos hex, updateStat_map_ttl]
  · rw [if_neg hex, if_neg hex]
    simp [update_ttl, newHopStat]

theorem extraProbes_map_address (p : Nat → Option HopReply) (a : String) :
    ∀ (idxs : List Nat) (stats : List hopStat),
      (extraProbes p a idxs stats).map hopStat.address =
        stats.map hopStat.address
  | [], _ => rfl
  | i :: rest, stats => by
    unfold extraProbes
    cases p i with
    | some h =>
      rw [extraProbes_map_address p a rest, updateStat_map_address]
    | none => exact extraProbes_map_address p a rest stats

theorem extraProbes_map_ttl (p : Nat → Option HopReply) (a : String) :
    ∀ (idxs : List Nat) (stats : List hopStat),
      (extraProbes p a idxs stats).map hopStat.ttl = stats.map hopStat.ttl
  | [], _ => rfl
  | i :: rest, stats => by
    unfold extraProbes
    cases p i with
    | some h => rw [extraProbes_map_ttl p a rest, updateStat_map_ttl]
    | none => exact extraProbes_map_ttl p a rest stats

/-- `hasAddr` decides membership of the address column. -/
theorem hasAddr_iff_mem (stats : List hopStat) (a : String) :
    hasAddr stats a = true ↔ a ∈ stats.map hopStat.address := by
  simp only [hasAddr, List.any_eq_true, beq_iff_eq, List.mem_map]


theorem statsWF_nil : statsWF [] := ⟨List.nodup_nil, rfl⟩

theorem statsWF_of_maps {s s' : List hopStat}
    (ha : s'.map hopStat.address = s.map hopStat.address)
    (ht : s'.map hopStat.ttl = s.map hopStat.ttl)
    (hwf : statsWF s) : statsWF s' := by
  obtain ⟨hnd, httl⟩ := hwf
  have hlen : s'.length = s.length := by
    have := congrArg List.length ha
    simpa using this
  refine ⟨ha ▸ hnd, ?_⟩
  rw [ht, hlen]
  exact httl

theorem statsWF_touch (stats : List hopStat) (a : String) (r : Int)
    (hwf : statsWF stats) : statsWF (touchStat stats a r) := by
  obtain ⟨hnd, httl⟩ := hwf
  by_cases hex : hasAddr stats a
  · exact statsWF_of_maps
      (by rw [touchStat_map_address, if_pos hex])
      (by rw [touchStat_map_ttl, if_pos hex]) ⟨hnd, httl⟩
  · have ha : a ∉ stats.map hopStat.address := fun hmem =>
      hex ((hasAddr_iff_mem stats a).mpr hmem)
    constructor
    · rw [touchStat_map_address, if_neg hex, List.nodup_append]
      exact ⟨hnd, List.nodup_singleton a,
        fun x hx hxa => ha ((List.mem_singleton.mp hxa) ▸ hx)⟩
    · rw [touchStat_map_ttl, if_neg hex]
      have hlen : (touchStat stats a r).length = stats.length + 1 := by
        unfold touchStat
        rw [if_neg hex]
        simp
      rw [hlen, httl, List.range'_concat]
      simp [Nat.add_comm]

theorem statsWF_extraProbes (p : Nat → Option HopReply) (a : String)
    (idxs : List Nat) (stats : List hopStat) (hwf : statsWF stats) :
    statsWF (extraProbes p a idxs stats) :=
  statsWF_of_maps (extraProbes_map_address p a idxs stats)
    (extraProbes_map_ttl p a idxs stats) hwf

/-- One sweep step with no usable reply. -/
theorem mtrSweep_cons_none (oracle : Nat → Nat → Option HopReply)
    (tA : String) (e ttl : Nat) (rest : List Nat) (stats : List hopStat)
    (ho : oracle ttl 0 = none) :
    mtrSweep oracle tA e (ttl :: rest) stats =
      ((mtrSweep oracle tA e rest stats).1,
       (ttl, 0) :: (mtrSweep oracle tA e rest stats).2) := by
  simp [mtrSweep, ho]

/-- One sweep step that reaches the target: extra probes, then break. -/
theorem mtrSweep_cons_hit (oracle : Nat → Nat → Option HopReply)
    (tA : String) (e ttl : Nat) (rest : List Nat) (stats : List hopStat)
    (hop : HopReply) (ho : oracle ttl 0 = some hop) (hhit : hop.addr = tA) :
    mtrSweep oracle tA e (ttl :: rest) stats =
      (extraProbes (fun i => oracle ttl i) hop.addr
          ((List.range e).map (· + 1)) (touchStat stats hop.addr hop.rtt),
       (ttl, 0) :: (List.range e).map (fun i => (ttl, i + 1))) := by
  simp [mtrSweep, ho, hhit]

/-- One sweep step with a reply from a non-target hop. -/
theorem mtrSweep_cons_miss (oracle : Nat → Nat → Option HopReply)
    (tA : String) (e ttl : Nat) (rest : List Nat) (stats : List hopStat)
    (hop : HopReply) (ho : oracle ttl 0 = some hop) (hmiss : hop.addr ≠ tA) :
    mtrSweep oracle tA e (ttl :: rest) stats =
      ((mtrSweep oracle tA e rest (touchStat stats hop.addr hop.rtt)).1,
       (ttl, 0) ::
         (mtrSweep oracle tA e rest (touchStat stats hop.addr hop.rtt)).2) := by
  simp [mtrSweep, ho, hmiss]

theorem statsWF_sweep (oracle : Nat → Nat → Option HopReply) (tA : String)
    (e : Nat) : ∀ (ttls : List Nat) (stats : List hopStat), statsWF stats →
    statsWF (mtrSweep oracle tA e ttls stats).1
  | [], _, hwf => hwf
  | ttl :: rest, stats, hwf => by
    cases ho : oracle ttl 0 with
    | none =>
      rw [mtrSweep_cons_none oracle tA e ttl rest stats ho]
      exact statsWF_sweep oracle tA e rest stats hwf
    | some hop =>
      by_cases hhit : hop.addr = tA
      · rw [mtrSweep_cons_hit oracle tA e ttl rest stats hop ho hhit]
        exact statsWF_extraProbes _ _ _ _ (statsWF_touch stats hop.addr hop.rtt hwf)
      · rw [mtrSweep_cons_miss oracle tA e ttl rest stats hop ho hhit]
        exact statsWF_sweep oracle tA e rest _
          (statsWF_touch stats hop.addr hop.rtt hwf)

theorem compileHop_ttl (resolve : String → Option String) (rp : Bool)
    (st : hopStat) : (compileHop resolve rp st).ttl = st.ttl := rfl

theorem compileHop_address (resolve : String → Option String) (rp : Bool)
    (st : hopStat) : (compileHop resolve rp st).address = st.address := rfl

/-- The sorted-and-keyed shape of every assembled hop list (shared by
the ordering and the unreachable-target theorems). -/
theorem hops_sorted_nodup (pc : Nat)
    (oracle : Nat → Nat → Option HopReply) (resolve : String → Option String)
    (t : MTRTarget) :
    List.Pairwise (fun a b : MTRHop => a.ttl < b.ttl)
      (mtrProbe pc oracle resolve t).1.1.hops ∧
    ((mtrProbe pc oracle resolve t).1.1.hops.map MTRHop.address).Nodup := by
  have hwf := statsWF_sweep oracle t.address (getCount t - 1).toNat
    (ttlSweep t) [] statsWF_nil
  show List.Pairwise _ (sortHops (((mtrSweep oracle t.address
      (getCount t - 1).toNat (ttlSweep t) []).1).map
      (compileHop resolve t.resolvePtr))) ∧
    ((sortHops (((mtrSweep oracle t.address (getCount t - 1).toNat
      (ttlSweep t) []).1).map (compileHop resolve t.resolvePtr))).map
      MTRHop.address).Nodup
  obtain ⟨hnd, httl⟩ := hwf
  have hmapttl : (((mtrSweep oracle t.address (getCount t - 1).toNat
      (ttlSweep t) []).1).map (compileHop resolve t.resolvePtr)).map MTRHop.ttl =
      ((mtrSweep oracle t.address (getCount t - 1).toNat (ttlSweep t) []).1).map
        hopStat.ttl := by
    rw [List.map_map]
    exact List.map_congr_left fun st _ => rfl
  have hmapaddr : (((mtrSweep oracle t.address (getCount t - 1).toNat
      (ttlSweep t) []).1).map (compileHop resolve t.resolvePtr)).map
        MTRHop.address =
      ((mtrSweep oracle t.address (getCount t - 1).toNat (ttlSweep t) []).1).map
        hopStat.address := by
    rw [List.map_map]
    exact List.map_congr_left fun st _ => rfl
  have hperm := List.perm_insertionSort hopLE
    (((mtrSweep oracle t.address (getCount t - 1).toNat (ttlSweep t) []).1).map
      (compileHop resolve t.resolvePtr))
  have hsorted := List.sorted_insertionSort hopLE
    (((mtrSweep oracle t.address (getCount t - 1).toNat (ttlSweep t) []).1).map
      (compileHop resolve t.resolvePtr))
  have hnodupttl : ((sortHops (((mtrSweep oracle t.address
      (getCount t - 1).toNat (ttlSweep t) []).1).map
      (compileHop resolve t.resolvePtr))).map MTRHop.ttl).Nodup := by
    apply (List.Perm.nodup_iff (List.Perm.map MTRHop.ttl hperm)).mpr
    rw [hmapttl, httl]
    exact List.nodup_range' 1 _
  refine ⟨?_, ?_⟩
  · have hp1 : List.Pairwise (fun a b : MTRHop => a.ttl ≤ b.ttl)
        (sortHops _) := hsorted
    have hp2 : List.Pairwise (fun a b : MTRHop => a.ttl ≠ b.ttl)
        (sortHops _) := List.pairwise_map.mp hnodupttl
    exact (hp1.and hp2).imp fun hab => lt_of_le_of_ne hab.1 hab.2
  · apply (List.Perm.nodup_iff (List.Perm.map MTRHop.address hperm)).mpr
    rw [hmapaddr]
    exact hnd

/-- **C7**: in every assembled `MTRResult` the hop list is strictly
ordered by ascending ttl (hence no duplicate ttl values), with exactly
one hop entry per distinct responding address (hops are keyed by
address, the ttl being the position at first discovery). -/
theorem mtr_hops_strictly_sorted (pc : Nat)
    (oracle : Nat → Nat → Option HopReply) (resolve : String → Option String)
    (t : MTRTarget) :
    List.Pairwise (fun a b : MTRHop => a.ttl < b.ttl)
      (mtrProbe pc oracle resolve t).1.1.hops ∧
    ((mtrProbe pc oracle resolve t).1.1.hops.map MTRHop.address).Nodup :=
  hops_sorted_nodup pc oracle resolve t

/- ------------------------------------------------------------------ -/
/- §9  Which addresses end up in the stats map.                        -/
/- ------------------------------------------------------------------ -/

theorem touchStat_mem_address (stats : List hopStat) (a : String) (r : Int)
    (x : String) :
    x ∈ (touchStat stats a r).map hopStat.address ↔
      x ∈ stats.map hopStat.address ∨ x = a := by
  rw [touchStat_map_address]
  by_cases hex : hasAddr stats a
  · rw [if_pos hex]
    constructor
    · exact Or.inl
    · rintro (hx | rfl)
      · exact hx
      · exact (hasAddr_iff_mem stats x).mp hex
  · rw [if_neg hex]
    simp

/-- As long as no probed hop answers with the target address, the
addresses accumulated by the sweep are exactly the initial ones plus
every address some swept ttl answered with. -/
theorem mtrSweep_mem_address (oracle : Nat → Nat → Option HopReply)
    (tA : String) (e : Nat) :
    ∀ (ttls : List Nat),
      (∀ ttl ∈ ttls, ∀ hop, oracle ttl 0 = some hop → hop.addr ≠ tA) →
      ∀ (stats : List hopStat) (x : String),
      (x ∈ (mtrSweep oracle tA e ttls stats).1.map hopStat.address ↔
        x ∈ stats.map hopStat.address ∨
          ∃ t' ∈ ttls, ∃ rtt, oracle t' 0 = some ⟨x, rtt⟩)
  | [], _, stats, x => by simp [mtrSweep]
  | ttl :: rest, hno, stats, x => by
    have hrest : ∀ t' ∈ rest, ∀ hop, oracle t' 0 = some hop → hop.addr ≠ tA :=
      fun t' ht' => hno t' (List.mem_cons_of_mem ttl ht')
    cases ho : oracle ttl 0 with
    | none =>
      rw [mtrSweep_cons_none oracle tA e ttl rest stats ho,
        mtrSweep_mem_address oracle tA e rest hrest stats x]
      have hnone : ¬ ∃ rtt : Int, oracle ttl 0 = some ⟨x, rtt⟩ := by
        rintro ⟨rtt, hrtt⟩
        rw [ho] at hrtt
        cases hrtt
      constructor
      · rintro (hx | ⟨t', ht', hE⟩)
        · exact Or.inl hx
        · exact Or.inr ⟨t', List.mem_cons_of_mem ttl ht', hE⟩
      · rintro (hx | ⟨t', ht', hE⟩)
        · exact Or.inl hx
        · rcases List.mem_cons.mp ht' with rfl | ht'
          · exact absurd hE hnone
          · exact Or.inr ⟨t', ht', hE⟩
    | some hop =>
      have hmiss : hop.addr ≠ tA := hno ttl (List.mem_cons_self ttl rest) hop ho
      rw [mtrSweep_cons_miss oracle tA e ttl rest stats hop ho hmiss,
        mtrSweep_mem_address oracle tA e rest hrest _ x,
        touchStat_mem_address]
      have hfromhead : ∀ rtt : Int, oracle ttl 0 = some ⟨x, rtt⟩ →
          x = hop.addr := by
        intro rtt hrtt
        rw [ho] at hrtt
        injection hrtt with h2
        exact (congrArg HopReply.addr h2).symm
      constructor
      · rintro ((hx | rfl) | ⟨t', ht', hE⟩)
        · exact Or.inl hx
        · exact Or.inr ⟨ttl, List.mem_cons_self ttl rest, hop.rtt, by rw [ho]⟩
        · exact Or.inr ⟨t', List.mem_cons_of_mem ttl ht', hE⟩
      · rintro (hx | ⟨t', ht', rtt, hrtt⟩)
        · exact Or.inl (Or.inl hx)
        · rcases List.mem_cons.mp ht' with rfl | ht'
          · exact Or.inl (Or.inr (hfromhead rtt hrtt))
          · exact Or.inr ⟨t', ht', rtt, hrtt⟩

/-- **C5**: for every run, once the sweep finishes and assembly
completes, the MTR result carries `Success = true` and a nil error; and
when the target never answers within `MaxHops`, the hop list is strictly
ordered by ttl, contains no entry for the target, and holds exactly the
addresses that did answer some swept ttl. -/
theorem mtr_unreachable_target (pc : Nat) (oracle : Nat → Nat → Option HopReply)
    (resolve : String → Option String) (t : MTRTarget)
    (hnever : ∀ ttl i hop, oracle ttl i = some hop → hop.addr ≠ t.address) :
    (mtrProbe pc oracle resolve t).1.1.success = true ∧
    (mtrProbe pc oracle resolve t).1.2 = none ∧
    List.Pairwise (fun a b : MTRHop => a.ttl < b.ttl)
      (mtrProbe pc oracle resolve t).1.1.hops ∧
    (∀ h ∈ (mtrProbe pc oracle resolve t).1.1.hops, h.address ≠ t.address) ∧
    (∀ x : String,
      (∃ h ∈ (mtrProbe pc oracle resolve t).1.1.hops, h.address = x) ↔
        ∃ ttl ∈ ttlSweep t, ∃ rtt, oracle ttl 0 = some ⟨x, rtt⟩) := by
  have hno : ∀ ttl ∈ ttlSweep t, ∀ hop, oracle ttl 0 = some hop →
      hop.addr ≠ t.address := fun ttl _ hop h => hnever ttl 0 hop h
  have hmem := mtrSweep_mem_address oracle t.address (getCount t - 1).toNat
    (ttlSweep t) hno []
  have hmapeq : (((mtrSweep oracle t.address (getCount t - 1).toNat
      (ttlSweep t) []).1).map (compileHop resolve t.resolvePtr)).map
        MTRHop.address =
      ((mtrSweep oracle t.address (getCount t - 1).toNat (ttlSweep t) []).1).map
        hopStat.address := by
    rw [List.map_map]
    exact List.map_congr_left fun st _ => rfl
  have haddr : ∀ x : String,
      ((∃ h ∈ (mtrProbe pc oracle resolve t).1.1.hops, h.address = x) ↔
        x ∈ ((mtrSweep oracle t.address (getCount t - 1).toNat
          (ttlSweep t) []).1.map hopStat.address)) := by
    intro x
    rw [← List.mem_map,
      show (mtrProbe pc oracle resolve t).1.1.hops = sortHops
        (((mtrSweep oracle t.address (getCount t - 1).toNat (ttlSweep t) []).1).map
          (compileHop resolve t.resolvePtr)) from rfl, sortHops,
      List.Perm.mem_iff (List.Perm.map MTRHop.address
        (List.perm_insertionSort hopLE _)), hmapeq]
  refine ⟨rfl, rfl, (hops_sorted_nodup pc oracle resolve t).1, ?_, ?_⟩
  · intro h hm heq
    have hx := (haddr t.address).mp ⟨h, hm, heq⟩
    rcases (hmem t.address).mp hx with hx0 | ⟨ttl, httl, rtt, hrtt⟩
    · simp at hx0
    · exact hno ttl httl ⟨t.address, rtt⟩ hrtt rfl
  · intro x
    rw [haddr x, hmem x]
    simp


/-- Witness for `mtr_unreachable_target` on a concrete sweep whose
target never answers. -/
theorem mtr_unreachable_target_witness :
    (mtrProbe 0 neverOracle (fun _ => none) neverTarget).1.1.success = true ∧
    (mtrProbe 0 neverOracle (fun _ => none) neverTarget).1.2 = none ∧
    ∀ h ∈ (mtrProbe 0 neverOracle (fun _ => none) neverTarget).1.1.hops,
      h.address ≠ neverTarget.address := by
  have hnever : ∀ ttl i hop, neverOracle ttl i = some hop →
      hop.addr ≠ neverTarget.address := by
    intro ttl i hop h
    unfold neverOracle at h
    split at h
    · injection h with h2
      rw [← h2]
      decide
    · exact Option.noConfusion h
  have H := mtr_unreachable_target 0 neverOracle (fun _ => none) neverTarget hnever
  exact ⟨H.1, H.2.1, H.2.2.2.1⟩

/- ------------------------------------------------------------------ -/
/- §10  Reaching the target: extra probes and the end of the sweep.    -/
/- ------------------------------------------------------------------ -/

theorem update_sent (h : hopStat) (r : Int) : (h.update r).sent = h.sent + 1 := by
  by_cases hr : 0 < r
  · rw [update_pos h r hr]
  · rw [update_nonpos h r hr]

/-- Trace of a sweep segment in which no probed hop answers with the
target address: one main probe per ttl, in order. -/
theorem mtrSweep_trace_no_hit (oracle : Nat → Nat → Option HopReply)
    (tA : String) (e : Nat) :
    ∀ (ttls : List Nat),
      (∀ ttl ∈ ttls, ∀ hop, oracle ttl 0 = some hop → hop.addr ≠ tA) →
      ∀ stats : List hopStat,
      (mtrSweep oracle tA e ttls stats).2 = ttls.map (fun k => (k, 0))
  | [], _, _ => rfl
  | ttl :: rest, hno, stats => by
    have hrest : ∀ t' ∈ rest, ∀ hop, oracle t' 0 = some hop → hop.addr ≠ tA :=
      fun t' ht' => hno t' (List.mem_cons_of_mem ttl ht')
    cases ho : oracle ttl 0 with
    | none =>
      rw [mtrSweep_cons_none oracle tA e ttl rest stats ho,
        mtrSweep_trace_no_hit oracle tA e rest hrest stats]
      rfl
    | some hop =>
      have hmiss : hop.addr ≠ tA := hno ttl (List.mem_cons_self ttl rest) hop ho
      rw [mtrSweep_cons_miss oracle tA e ttl rest stats hop ho hmiss,
        mtrSweep_trace_no_hit oracle tA e rest hrest _]
      rfl

/-- A sweep splits at a no-hit prefix: the suffix continues from the
prefix's stats and the traces concatenate. -/
theorem mtrSweep_append_no_hit (oracle : Nat → Nat → Option HopReply)
    (tA : String) (e : Nat) :
    ∀ (l1 l2 : List Nat),
      (∀ ttl ∈ l1, ∀ hop, oracle ttl 0 = some hop → hop.addr ≠ tA) →
      ∀ stats : List hopStat,
      mtrSweep oracle tA e (l1 ++ l2) stats =
        ((mtrSweep oracle tA e l2 (mtrSweep oracle tA e l1 stats).1).1,
         (mtrSweep oracle tA e l1 stats).2 ++
           (mtrSweep oracle tA e l2 (mtrSweep oracle tA e l1 stats).1).2)
  | [], l2, _, stats => by simp [mtrSweep]
  | ttl :: l1, l2, hno, stats => by
    have hrest : ∀ t' ∈ l1, ∀ hop, oracle t' 0 = some hop → hop.addr ≠ tA :=
      fun t' ht' => hno t' (List.mem_cons_of_mem ttl ht')
    cases ho : oracle ttl 0 with
    | none =>
      rw [List.cons_append, mtrSweep_cons_none oracle tA e ttl (l1 ++ l2) stats ho,
        mtrSweep_cons_none oracle tA e ttl l1 stats ho,
        mtrSweep_append_no_hit oracle tA e l1 l2 hrest stats]
      rfl
    | some hop =>
      have hmiss : hop.addr ≠ tA := hno ttl (List.mem_cons_self ttl l1) hop ho
      rw [List.cons_append, mtrSweep_cons_miss oracle tA e ttl (l1 ++ l2) stats hop ho hmiss,
        mtrSweep_cons_miss oracle tA e ttl l1 stats hop ho hmiss,
        mtrSweep_append_no_hit oracle tA e l1 l2 hrest _]
      rfl

/-- Updating through the pointer for `a` adds one `sent` to exactly the
entries whose address is `a`. -/
theorem updateStat_filter_sent (stats : List hopStat) (a : String) (r : Int) :
    ((updateStat stats a r).filter (fun st => st.address == a)).map hopStat.sent
      = ((stats.filter (fun st => st.address == a)).map hopStat.sent).map
          (· + 1) := by
  unfold updateStat
  rw [List.filter_map]
  have hcong : List.filter ((fun st : hopStat => st.address == a) ∘
        fun st => if st.address = a then st.update r else st) stats =
      List.filter (fun st : hopStat => st.address == a) stats :=
    List.filter_congr (fun st _ => by
      by_cases hst : st.address = a <;> simp [hst, update_address])
  rw [hcong, List.map_map, List.map_map]
  apply List.map_congr_left
  intro st hst
  have hq := List.mem_filter.mp hst
  have hqa : st.address = a := by simpa using hq.2
  show ((if st.address = a then st.update r else st).sent) = st.sent + 1
  rw [if_pos hqa, update_sent]

/-- Extra probes add one `sent` per successful attempt to the entries
keyed by the first reply's address. -/
theorem extraProbes_filter_sent (p : Nat → Option HopReply) (a : String) :
    ∀ (idxs : List Nat) (stats : List hopStat),
    ((extraProbes p a idxs stats).filter (fun st => st.address == a)).map
        hopStat.sent
      = ((stats.filter (fun st => st.address == a)).map hopStat.sent).map
          (· + (idxs.filter (fun i => (p i).isSome)).length)
  | [], stats => by
    show ((stats.filter (fun st => st.address == a)).map hopStat.sent) = _
    simp
  | i :: rest, stats => by
    unfold extraProbes
    cases hp : p i with
    | some h =>
      rw [extraProbes_filter_sent p a rest (updateStat stats a h.rtt),
        updateStat_filter_sent, List.map_map, List.map_map]
      have hcnt : ((i :: rest).filter (fun j => (p j).isSome)).length =
          (rest.filter (fun j => (p j).isSome)).length + 1 := by
        simp [List.filter_cons, hp]
      rw [hcnt, List.map_map]
      apply List.map_congr_left
      intro st _
      show st.sent + 1 + (rest.filter (fun j => (p j).isSome)).length =
        st.sent + ((rest.filter (fun j => (p j).isSome)).length + 1)
      omega
    | none =>
      rw [extraProbes_filter_sent p a rest stats]
      have hcnt : ((i :: rest).filter (fun j => (p j).isSome)).length =
          (rest.filter (fun j => (p j).isSome)).length := by
        simp [List.filter_cons, hp]
      rw [hcnt]

/-- Creating the entry for a fresh address and feeding it the first
sample leaves exactly one entry for that address, with `sent = 1`. -/
theorem touchStat_filter_sent_new (stats : List hopStat) (a : String) (r : Int)
    (habs : ¬ hasAddr stats a = true) :
    ((touchStat stats a r).filter (fun st => st.address == a)).map hopStat.sent
      = [1] := by
  unfold touchStat
  rw [if_neg habs, List.filter_append]
  have h1 : stats.filter (fun st => st.address == a) = [] := by
    rw [List.filter_eq_nil_iff]
    intro st hst hq
    exact habs ((hasAddr_iff_mem stats a).mpr
      (List.mem_map.mpr ⟨st, hst, by simpa using hq⟩))
  have h2 : ((newHopStat (stats.length + 1) a).update r).address = a := by
    rw [update_address]
    rfl
  have h3 : List.filter (fun st => st.address == a)
      [(newHopStat (stats.length + 1) a).update r] =
      [(newHopStat (stats.length + 1) a).update r] := by
    simp [h2]
  rw [h1, h3, List.nil_append]
  simp [update_sent, newHopStat]

/-- **C6**: when a probed hop's responding address equals the target
address (string match) for the first time at ttl `t0`, the orchestrator
issues exactly `Count − 1` additional probes at that same ttl (zero when
`Count` is unset, since `GetCount` defaults to 1) and ends the sweep: the
probe trace is the main probes at ttls `1, …, t0` followed by the
`Count − 1` extra attempts at `t0`; and exactly one hop entry exists for
the target, whose `sent` is 1 plus the number of extra probes that
succeeded. -/
theorem mtr_target_reached_extras (pc : Nat)
    (oracle : Nat → Nat → Option HopReply) (resolve : String → Option String)
    (t : MTRTarget) (t0 : Nat) (r0 : HopReply)
    (ht0 : t0 ∈ ttlSweep t)
    (hhit : oracle t0 0 = some r0) (haddr : r0.addr = t.address)
    (hbefore : ∀ ttl, ttl < t0 → ∀ hop, oracle ttl 0 = some hop →
      hop.addr ≠ t.address) :
    (mtrProbe pc oracle resolve t).2 =
      (List.range' 1 t0).map (fun k => (k, 0)) ++
        (List.range (getCount t - 1).toNat).map (fun i => (t0, i + 1)) ∧
    ((mtrProbe pc oracle resolve t).1.1.hops.filter
        (fun h => h.address == t.address)).map MTRHop.sent =
      [1 + (((List.range (getCount t - 1).toNat).map (· + 1)).filter
          (fun j => (oracle t0 j).isSome)).length] := by
  obtain ⟨h1, h2⟩ := List.mem_range'_1.mp ht0
  set M := (effMaxHops t).toNat with hMdef
  set e := (getCount t - 1).toNat with hedef
  have hl1 : ∀ ttl ∈ List.range' 1 (t0 - 1), ∀ hop,
      oracle ttl 0 = some hop → hop.addr ≠ t.address := by
    intro ttl hm
    obtain ⟨ha1, ha2⟩ := List.mem_range'_1.mp hm
    exact hbefore ttl (by omega)
  have hsplit : ttlSweep t =
      List.range' 1 (t0 - 1) ++ t0 :: List.range' (t0 + 1) (M - t0) := by
    show List.range' 1 M = _
    have hc : t0 :: List.range' (t0 + 1) (M - t0) =
        List.range' t0 ((M - t0) + 1) := rfl
    rw [hc]
    have happ := List.range'_append 1 (t0 - 1) ((M - t0) + 1) 1
    rw [show 1 + 1 * (t0 - 1) = t0 by omega] at happ
    rw [show ((M - t0) + 1) + (t0 - 1) = M by omega] at happ
    exact happ.symm
  set S1 := (mtrSweep oracle t.address e (List.range' 1 (t0 - 1)) []).1
    with hS1
  have hstep := mtrSweep_cons_hit oracle t.address e t0
    (List.range' (t0 + 1) (M - t0)) S1 r0 hhit haddr
  have hrun : mtrSweep oracle t.address e (ttlSweep t) [] =
      (extraProbes (fun i => oracle t0 i) r0.addr
          ((List.range e).map (· + 1)) (touchStat S1 r0.addr r0.rtt),
       (List.range' 1 (t0 - 1)).map (fun k => (k, 0)) ++
         ((t0, 0) :: (List.range e).map (fun i => (t0, i + 1)))) := by
    rw [hsplit, mtrSweep_append_no_hit oracle t.address e _ _ hl1 [], hstep,
      mtrSweep_trace_no_hit oracle t.address e _ hl1 []]
  have htabs : ¬ hasAddr S1 t.address = true := by
    intro hex
    have hx := (hasAddr_iff_mem S1 t.address).mp hex
    rcases (mtrSweep_mem_address oracle t.address e _ hl1 [] t.address).mp hx
      with h0 | ⟨t', ht', rtt, hrtt⟩
    · simp at h0
    · obtain ⟨hb1, hb2⟩ := List.mem_range'_1.mp ht'
      exact hbefore t' (by omega) ⟨t.address, rtt⟩ hrtt rfl
  have hstats : ((extraProbes (fun i => oracle t0 i) r0.addr
      ((List.range e).map (· + 1)) (touchStat S1 r0.addr r0.rtt)).filter
        (fun st => st.address == t.address)).map hopStat.sent =
      [1 + (((List.range e).map (· + 1)).filter
          (fun j => (oracle t0 j).isSome)).length] := by
    rw [haddr]
    rw [extraProbes_filter_sent, touchStat_filter_sent_new S1 t.address r0.rtt htabs]
    rfl
  constructor
  · show (mtrSweep oracle t.address e (ttlSweep t) []).2 = _
    rw [hrun]
    have hr10 : List.range' 1 t0 = List.range' 1 (t0 - 1) ++ [t0] := by
      have hcc := @List.range'_concat 1 1 (t0 - 1)
      rw [show 1 + 1 * (t0 - 1) = t0 by omega] at hcc
      rw [show (t0 - 1) + 1 = t0 by omega] at hcc
      exact hcc
    rw [hr10, List.map_append, List.append_assoc]
    rfl
  · show ((sortHops (((mtrSweep oracle t.address e (ttlSweep t) []).1).map
        (compileHop resolve t.resolvePtr))).filter
        (fun h => h.address == t.address)).map MTRHop.sent = _
    rw [hrun]
    have hpf := List.Perm.map MTRHop.sent
      (List.Perm.filter (fun h : MTRHop => h.address == t.address)
        (List.perm_insertionSort hopLE
          ((extraProbes (fun i => oracle t0 i) r0.addr
              ((List.range e).map (· + 1)) (touchStat S1 r0.addr r0.rtt)).map
            (compileHop resolve t.resolvePtr))))
    have hLp : ((((extraProbes (fun i => oracle t0 i) r0.addr
        ((List.range e).map (· + 1)) (touchStat S1 r0.addr r0.rtt)).map
          (compileHop resolve t.resolvePtr)).filter
        (fun h => h.address == t.address)).map MTRHop.sent) =
        [1 + (((List.range e).map (· + 1)).filter
          (fun j => (oracle t0 j).isSome)).length] := by
      rw [List.filter_map, List.map_map]
      exact hstats
    rw [hLp] at hpf
    exact List.perm_singleton.mp hpf


/-- Witness for `mtr_target_reached_extras`: with `MaxHops = 5` and
`Count = 3`, the trace is the five sweep probes followed by exactly two
extra probes at ttl 5, and the single target hop has `sent = 3`. -/
theorem mtr_target_reached_extras_witness :
    (mtrProbe 0 reach5Oracle (fun _ => none) reach5Target).2 =
      [(1, 0), (2, 0), (3, 0), (4, 0), (5, 0), (5, 1), (5, 2)] ∧
    ((mtrProbe 0 reach5Oracle (fun _ => none) reach5Target).1.1.hops.filter
        (fun h => h.address == reach5Target.address)).map MTRHop.sent = [3] := by
  have hbefore : ∀ ttl, ttl < 5 → ∀ hop, reach5Oracle ttl 0 = some hop →
      hop.addr ≠ reach5Target.address := by
    intro ttl hlt hop h
    unfold reach5Oracle at h
    rw [if_neg (by omega : ¬ ttl = 5)] at h
    split at h
    · injection h with h2
      rw [← h2]
      decide
    · exact Option.noConfusion h
  have H := mtr_target_reached_extras 0 reach5Oracle (fun _ => none)
    reach5Target 5 ⟨"198.51.100.99", 11⟩ (by decide) (by decide) (by decide)
    hbefore
  refine ⟨?_, ?_⟩
  · rw [H.1]
    decide
  · rw [H.2]
    decide

end LibProbe

